import Mathlib

/-!
Verification of the core of the Oracle 11g → 9i export tool.

The definitions below are shallow embeddings of the functions in
`src/db_utils.py`, `src/exporter.py` and `src/validator.py`.  Pure text
processing (the statement splitter `clean_ddl`, the batching helper
`chunked`) is translated directly.  Database-effecting code is embedded
by making every database response an explicit parameter (an environment
record) and by recording the externally visible operations in a trace of
actions, so that the control flow of the Python code becomes a pure
function from the environment to an outcome plus a trace.
-/

namespace ExportaOracle

/-! ## Statement splitter — `db_utils.clean_ddl`

`clean_ddl` receives the DDL text already materialized as a string (the
Python function first drains a LOB handle when it receives one; that I/O
step is outside the embedding, which starts from the resulting string).
-/

/-- The single-quote character (written via its code point). -/
def squote : Char := Char.ofNat 39

/-- The scanner test for a quote character (single or double quote). -/
def isQuoteChar (c : Char) : Bool := c = squote || c = '"'

/-- Whitespace characters stripped by Python `str.strip()` (the ASCII ones;
after the control-character cleaning pass only space, tab and newline can
occur where `strip` is applied). -/
def isWsChar (c : Char) : Bool :=
  c = ' ' || c = '\t' || c = '\n' || c = '\r' || c = Char.ofNat 11 || c = Char.ofNat 12

/-- `ddl.replace("﻿", "").replace("​", "")`. -/
def stripMarks (l : List Char) : List Char :=
  l.filter (fun c => !(c = Char.ofNat 0xFEFF || c = Char.ofNat 0x200B))

/-- `.replace("\r\n", "\n").replace("\r", "\n")` in one left-to-right pass. -/
def normNl : List Char → List Char
  | [] => []
  | '\r' :: '\n' :: rest => '\n' :: normNl rest
  | '\r' :: rest => '\n' :: normNl rest
  | c :: rest => c :: normNl rest

/-- Characters kept unchanged by the control-character cleaning pass:
printable ASCII, tab and newline (the per-line pass of the Python code,
with the `"\n".join` of the lines, is the same as one pass over the whole
text that keeps newlines). -/
def keepPrintable (c : Char) : Bool :=
  (32 ≤ c.toNat && c.toNat ≤ 126) || c = '\t' || c = '\n'

/-- Every character outside `keepPrintable` becomes a single space. -/
def ctlToSpace (l : List Char) : List Char :=
  l.map (fun c => if keepPrintable c then c else ' ')

/-- The whole normalisation prefix of `clean_ddl` (lines 163–173). -/
def preClean (l : List Char) : List Char := ctlToSpace (normNl (stripMarks l))

/-- Left strip. -/
def trimL (l : List Char) : List Char := l.dropWhile isWsChar

/-- Right strip. -/
def trimR (l : List Char) : List Char := (l.reverse.dropWhile isWsChar).reverse

/-- Python `str.strip()`. -/
def pyStrip (l : List Char) : List Char := trimR (trimL l)

/-- `str.strip()` on `String`. -/
def pStrip (s : String) : String := ⟨pyStrip s.data⟩

/-- Python `str.rstrip(";")`. -/
def rstripSemi (s : String) : String :=
  ⟨(s.data.reverse.dropWhile (fun c => c = ';')).reverse⟩

/-- State of the character scanner of `clean_ddl`: accumulated statements,
current statement, the opening quote of the quoted region (if inside one)
and the escape flag. -/
structure ScanState where
  statements : List String
  current : List Char
  quote : Option Char
  escapeNext : Bool
deriving DecidableEq, Repr

def initScan : ScanState := ⟨[], [], none, false⟩

/-- `stmt = current_statement.strip(); if stmt and not stmt.isspace(): append`
(a stripped non-empty string is never whitespace-only, so the test is
equivalent to non-emptiness of the stripped text). -/
def emitStmt (cur : List Char) (stmts : List String) : List String :=
  if pStrip ⟨cur⟩ = "" then stmts else stmts ++ [pStrip ⟨cur⟩]

/-- One step of the scanner (lines 183–214 of `db_utils.py`). -/
def scanStep (st : ScanState) (c : Char) : ScanState :=
  if st.escapeNext then
    { st with current := st.current ++ [c], escapeNext := false }
  else if c = '\\' then
    { st with current := st.current ++ [c], escapeNext := true }
  else if isQuoteChar c then
    match st.quote with
    | none => { st with current := st.current ++ [c], quote := some c }
    | some q =>
      if c = q then { st with current := st.current ++ [c], quote := none }
      else { st with current := st.current ++ [c] }
  else if st.quote = none && c = ';' then
    { st with statements := emitStmt st.current st.statements, current := [] }
  else
    { st with current := st.current ++ [c] }

/-- The scan phase: fold the scanner over the text, then emit the trailing
partial statement if non-blank. -/
def scanStatements (d : List Char) : List String :=
  let fin := d.foldl scanStep initScan
  emitStmt fin.current fin.statements

/-- Kept by the per-statement control-character filter:
`ord(c) >= 32 or c in ("\n", "\t")`. -/
def keepCtl (c : Char) : Bool := 32 ≤ c.toNat || c = '\n' || c = '\t'

def filterCtl (s : String) : String := ⟨s.data.filter keepCtl⟩

/-- The per-statement cleanup loop (lines 221–228):
`stmt.rstrip(";").strip()`, then drop remaining control characters, then
keep only non-empty results. -/
def cleanupStatements (stmts : List String) : List String :=
  stmts.foldl
    (fun acc stmt =>
      let s2 := filterCtl (pStrip (rstripSemi stmt))
      if s2 = "" then acc else acc ++ [s2]) []

/-- The statement list produced by scanning plus cleanup. -/
def cleanedList (s : String) : List String :=
  cleanupStatements (scanStatements (preClean s.data))

/-- `[ddl.strip().rstrip(";")]`, the fallback result (line 230), where `ddl`
is the normalised text. -/
def fallbackStmt (s : String) : String := rstripSemi (pStrip ⟨preClean s.data⟩)

/-- `db_utils.clean_ddl` (lines 147–230). -/
def clean_ddl (s : String) : List String :=
  if s = "" then []
  else if cleanedList s = [] then [fallbackStmt s] else cleanedList s

/-! ## Batching — `db_utils.chunked` and `OracleExporter._insert_rows`

`chunked` appends items to a bucket and yields the bucket whenever its
length reaches `size`; a non-empty final bucket is yielded at the end.
The embedding keeps the bucket reversed and tracks its length in a
counter `n` (the invariant `n = bucket.length` replaces the Python
`len(bucket) == size` test).
-/

def chunkedAux {α : Type} (size : Nat) : List α → List α → Nat → List (List α)
  | [], bucket, _ => if bucket.isEmpty then [] else [bucket.reverse]
  | x :: xs, bucket, n =>
    if n + 1 = size then (x :: bucket).reverse :: chunkedAux size xs [] 0
    else chunkedAux size xs (x :: bucket) (n + 1)

/-- `db_utils.chunked` (lines 264–272). -/
def chunked {α : Type} (l : List α) (size : Nat) : List (List α) :=
  chunkedAux size l [] 0

/-- The externally visible operations of `_insert_rows`: one `executemany`
per batch, plus the commit. -/
inductive InsEvent (α : Type) where
  | ins (batch : List α)
  | commit
deriving DecidableEq, Repr

/-- `OracleExporter._insert_rows` (lines 359–381) as the sequence of insert
calls and commits it issues: nothing at all for an empty row list (early
return), otherwise one `executemany` per batch followed by a single
commit. -/
def insert_rows {α : Type} (rows : List α) (b : Nat) : List (InsEvent α) :=
  if rows.isEmpty then []
  else ((chunked rows b).map InsEvent.ins) ++ [InsEvent.commit]

/-- Recogniser for the commit event, used to count commits in a trace. -/
def isCommit {α : Type} : InsEvent α → Bool
  | .commit => true
  | _ => false

/-! ## DDL replication — `OracleExporter._copy_ddl` and helpers

Database responses are an explicit environment; the externally visible
calls against the databases are recorded in a trace.
-/

/-- Result of one `execute`-style call against the target database:
success, or a `cx_Oracle.DatabaseError` with the given ORA code. -/
inductive ExecResult where
  | ok
  | err (code : Nat)
deriving DecidableEq, Repr

/-- The object categories of `DDL_OBJECTS` (exporter.py line 16). -/
inductive ObjType where
  | TABLE | VIEW | SYNONYM | TRIGGER | PROCEDURE | FUNCTION | PACKAGE | PACKAGE_BODY
deriving DecidableEq, Repr

/-- Externally visible calls made while replicating one object. -/
inductive Action where
  | checkExists
  | dropCascade
  | dropPlain
  | fetchSource
  | execDdl (ddl : String)
  | splitExec (stmts : List String)
  | commit
deriving DecidableEq, Repr

inductive Outcome where
  | applied
  | failedSkipped
deriving DecidableEq, Repr

/-- Target responses consumed by one `_drop_table` call. -/
structure DropEnv where
  tabExists : Bool
  cascade : ExecResult
  plain : ExecResult
deriving DecidableEq, Repr

/-- `OracleExporter._drop_table` (lines 404–429): nothing if the table does
not exist; otherwise `DROP TABLE ... CASCADE CONSTRAINTS`, and on a
database error a plain `DROP TABLE` retry.  Returns whether the table was
dropped, with the trace of calls. -/
def drop_table (d : DropEnv) : Bool × List Action :=
  if d.tabExists = false then (false, [Action.checkExists])
  else
    match d.cascade with
    | .ok => (true, [Action.checkExists, Action.dropCascade])
    | .err _ =>
      match d.plain with
      | .ok => (true, [Action.checkExists, Action.dropCascade, Action.dropPlain])
      | .err _ => (false, [Action.checkExists, Action.dropCascade, Action.dropPlain])

/-- Target/source responses consumed while replicating one object. -/
structure DdlEnv where
  /-- `_table_exists` before the initial create of a table (line 201). -/
  preExists : Bool
  /-- responses for the `_drop_table` before the initial create (line 203). -/
  dropPre : DropEnv
  /-- result of `execute_non_query(target_conn, ddl_str)` (line 210). -/
  execFirst : ExecResult
  /-- responses for the `_drop_table` in the already-exists branch (line 219). -/
  dropConflict : DropEnv
  /-- result of the re-create after a successful drop (line 222). -/
  execRecreate : ExecResult
  /-- rows `(line, text)` of `ALL_SOURCE` for this object. -/
  sourceLines : List (Nat × String)
  /-- result of executing the `ALL_SOURCE`-derived DDL (line 240). -/
  execAllSource : ExecResult
  /-- result of the statement-by-statement retry (lines 251–255). -/
  execSplit : ExecResult
deriving Repr

/-- `ORDER BY line` of the `ALL_SOURCE` query. -/
def sortByLine (l : List (Nat × String)) : List (Nat × String) :=
  List.insertionSort (fun a b => a.1 ≤ b.1) l

instance : IsTotal (Nat × String) (fun a b => a.1 ≤ b.1) :=
  ⟨fun a b => Nat.le_total a.1 b.1⟩

instance : IsTrans (Nat × String) (fun a b => a.1 ≤ b.1) :=
  ⟨fun _ _ _ h h2 => Nat.le_trans h h2⟩

/-- `OracleExporter._get_package_ddl_from_source` (lines 431–467): join the
source lines ordered by line number; a result whose trimmed length is
below 10 raises `ValueError` (modelled as `Except.error`). -/
def get_package_ddl_from_source (lines : List (Nat × String)) : Except Unit String :=
  let ddl := String.join ((sortByLine lines).map Prod.snd)
  if (pStrip ddl).length < 10 then Except.error () else Except.ok ddl

def isPkg : ObjType → Bool
  | .PACKAGE => true
  | .PACKAGE_BODY => true
  | _ => false

/-- The short-DDL check and fallback (lines 188–197): when the trimmed DDL
has fewer than 10 characters, packages and package bodies are re-derived
from `ALL_SOURCE` (keeping the original text if that fails); every other
category keeps the short DDL.  Returns the DDL that will be applied plus
the trace of source fetches. -/
def materialize (t : ObjType) (ddl0 : String) (env : DdlEnv) : String × List Action :=
  if (pStrip ddl0).length < 10 then
    if isPkg t then
      match get_package_ddl_from_source env.sourceLines with
      | .ok d => (d, [Action.fetchSource])
      | .error _ => (ddl0, [Action.fetchSource])
    else (ddl0, [])
  else (ddl0, [])

def materializedDdl (t : ObjType) (ddl0 : String) (env : DdlEnv) : String :=
  (materialize t ddl0 env).1

/-- The pre-create existence check and drop for tables (lines 200–208);
the result of the drop is ignored there. -/
def preTable (t : ObjType) (env : DdlEnv) : List Action :=
  if t = ObjType.TABLE then
    Action.checkExists :: (if env.preExists then (drop_table env.dropPre).2 else [])
  else []

/-- Actions up to and including the first `execute_non_query` of the DDL. -/
def baseTrace (t : ObjType) (ddl0 : String) (env : DdlEnv) : List Action :=
  (materialize t ddl0 env).2 ++ preTable t env ++ [Action.execDdl (materializedDdl t ddl0 env)]

def outcomeOf (r : ExecResult) : Outcome :=
  if r = ExecResult.ok then Outcome.applied else Outcome.failedSkipped

/-- The clean-and-split retry (lines 248–261): split the current DDL with
`clean_ddl`, execute the non-blank statements one by one, commit on
success; on any failure the object is recorded as failed and the loop
continues. -/
def splitRetry (d : String) (acc : List Action) (env : DdlEnv) : Outcome × List Action :=
  (outcomeOf env.execSplit,
   acc ++ [Action.splitExec (clean_ddl d)] ++
     (if env.execSplit = ExecResult.ok then [Action.commit] else []))

/-- `error.code in (955, 2264, 1430)` (line 215). -/
def isConflictCode (c : Nat) : Bool := c = 955 || c = 2264 || c = 1430

/-- `error.code in (911, 900, 6550)` (line 233). -/
def isSyntaxCode (c : Nat) : Bool := c = 911 || c = 900 || c = 6550

/-- Replication of a single object inside the `_copy_ddl` loop
(lines 162–265), given the materialized DDL text `ddl0`. -/
def copy_obj (t : ObjType) (ddl0 : String) (env : DdlEnv) : Outcome × List Action :=
  let d := materializedDdl t ddl0 env
  let base := baseTrace t ddl0 env
  match env.execFirst with
  | .ok => (Outcome.applied, base)
  | .err c =>
    if isConflictCode c then
      if t = ObjType.TABLE then
        let dropRes := drop_table env.dropConflict
        if dropRes.1 then
          (outcomeOf env.execRecreate, base ++ dropRes.2 ++ [Action.execDdl d])
        else (Outcome.failedSkipped, base ++ dropRes.2)
      else (Outcome.applied, base)
    else if isSyntaxCode c then
      if isPkg t && (c = 900 || c = 6550) then
        match get_package_ddl_from_source env.sourceLines with
        | .ok d2 =>
          match env.execAllSource with
          | .ok => (Outcome.applied, base ++ [Action.fetchSource, Action.execDdl d2])
          | .err _ => splitRetry d2 (base ++ [Action.fetchSource, Action.execDdl d2]) env
        | .error _ => splitRetry d (base ++ [Action.fetchSource]) env
      else splitRetry d base env
    else (Outcome.failedSkipped, base)

/-- The per-category loop of `_copy_ddl`: every object is processed, the
applied ones are counted, and no outcome stops the iteration. -/
def copy_objects (objs : List (ObjType × String × DdlEnv)) : Nat × List Outcome :=
  objs.foldl
    (fun acc o =>
      let out := (copy_obj o.1 o.2.1 o.2.2).1
      (acc.1 + (if out = Outcome.applied then 1 else 0), acc.2 ++ [out]))
    (0, [])

/-! ## Data copy — `OracleExporter._table_exists` and `_copy_data` -/

/-- `OracleExporter._table_exists` (lines 383–402): the catalog count query
either returns a count or raises; the `except Exception: return False`
maps every failure to `false`. -/
def table_exists (q : Except Nat Nat) : Bool :=
  match q with
  | .ok count => decide (0 < count)
  | .error _ => false

/-- Externally visible operations of `_copy_data` for one schema. -/
inductive DataAct where
  | check (t : String)
  | attempt (t : String)
  | report (missing : List String)
deriving DecidableEq, Repr

/-- Database responses consumed by `_copy_data` for one schema. -/
structure DataEnv where
  /-- result of the `all_tables` count query behind `_table_exists`. -/
  existsQuery : String → Except Nat Nat
  /-- result of the truncate-fetch-insert block for an existing table:
  rows copied, or the exception caught by the per-table handler. -/
  copyRes : String → Except Nat Nat

def existsTgt (env : DataEnv) (t : String) : Bool := table_exists (env.existsQuery t)

/-- One iteration of the `_copy_data` table loop (lines 284–308): actions,
the missing classification of the table (if any) and the rows copied.
`DataAct.attempt` stands for the whole truncate + fetch + insert block. -/
def processTable (env : DataEnv) (t : String) : List DataAct × Option String × Nat :=
  if existsTgt env t = false then ([DataAct.check t], some t, 0)
  else
    match env.copyRes t with
    | .ok n => ([DataAct.check t, DataAct.attempt t], none, n)
    | .error _ => ([DataAct.check t, DataAct.attempt t], none, 0)

/-- `OracleExporter._copy_data` (lines 271–323) for one schema: iterate the
source tables in order, collect the missing ones as `"schema.table"`,
report the missing list at the end.  Returns (trace, missing, rows). -/
def dataStep (env : DataEnv) (schema : String)
    (acc : List DataAct × List String × Nat) (t : String) :
    List DataAct × List String × Nat :=
  let r := processTable env t
  (acc.1 ++ r.1,
   acc.2.1 ++ (match r.2.1 with | some m => [schema ++ "." ++ m] | none => []),
   acc.2.2 + r.2.2)

def copy_data (env : DataEnv) (schema : String) (tables : List String) :
    List DataAct × List String × Nat :=
  let step := tables.foldl (dataStep env schema) ([], [], 0)
  (step.1 ++ [DataAct.report step.2.1], step.2.1, step.2.2)

/-! ## Validator — `validator.py`

Catalog contents and row counts are explicit environment functions;
a count query on a table absent from a database raises (ORA-00942),
modelled by `Except.error`.
-/

/-- Databases as seen by `_validate_tables`: the source table catalog per
schema and the two `SELECT COUNT(*)` queries, which can raise. -/
structure TablesDb where
  sourceTables : String → List String
  sourceCount : String → String → Except Nat Nat
  targetCount : String → String → Except Nat Nat

/-- The mismatch message of line 102:
`f"{schema}.{table}: origem={source_count} destino={target_count}"`. -/
def tableMsg (s t : String) (a b : Nat) : String :=
  s ++ "." ++ t ++ ": origem=" ++ toString a ++ " destino=" ++ toString b

/-- The inner table loop of `_validate_tables` (lines 96–104): count rows
on both sides and append a message on mismatch; an uncaught exception from
either count propagates. -/
def countTablesAux (db : TablesDb) (s : String) :
    List String → List String → Except Nat (List String)
  | [], acc => Except.ok acc
  | t :: ts, acc =>
    match db.sourceCount s t with
    | .error e => Except.error e
    | .ok sc =>
      match db.targetCount s t with
      | .error e => Except.error e
      | .ok tc =>
        countTablesAux db s ts (if sc ≠ tc then acc ++ [tableMsg s t sc tc] else acc)

/-- The outer schema loop of `_validate_tables`. -/
def validate_tables_go (db : TablesDb) :
    List String → List String → Except Nat (List String)
  | [], acc => Except.ok acc
  | s :: ss, acc =>
    match countTablesAux db s (db.sourceTables s) acc with
    | .error e => Except.error e
    | .ok acc2 => validate_tables_go db ss acc2

/-- `OracleValidator._validate_tables` (lines 85–106): for every schema and
every source table, count rows on both sides and append a message on
mismatch.  An uncaught exception from either count aborts the run
(`Except.error`). -/
def validate_tables (db : TablesDb) (schemas : List String) : Except Nat (List String) :=
  validate_tables_go db schemas []

/-- The mismatch lines of one schema when every count succeeds. -/
def schemaTableMismatches (db : TablesDb) (s : String) : List String :=
  (db.sourceTables s).filterMap
    (fun t =>
      match db.sourceCount s t, db.targetCount s t with
      | .ok a, .ok b => if a ≠ b then some (tableMsg s t a b) else none
      | _, _ => none)

/-- The mismatch list `_validate_tables` produces when every count succeeds
(used to characterise the success case). -/
def tableMismatches (db : TablesDb) (schemas : List String) : List String :=
  schemas.flatMap (schemaTableMismatches db)

/-- Python `repr` of one string (single-quoted), as it appears inside the
`str()` of a list in an f-string. -/
def pyQuote (s : String) : String := String.singleton squote ++ s ++ String.singleton squote

/-- Python `str()` of a list of strings. -/
def pyReprList (l : List String) : String :=
  "[" ++ String.intercalate ", " (l.map pyQuote) ++ "]"

/-- The Python set built from query rows, as a sorted duplicate-free list
(`sorted(...)` is applied to every set before it is reported). -/
def setList (l : List String) : List String :=
  List.insertionSort (fun a b => a ≤ b) l.dedup

/-- `f"{schema} faltando no destino: {sorted(missing)}"` (line 150). -/
def missingMsg (s : String) (names : List String) : String :=
  s ++ " faltando no destino: " ++ pyReprList names

/-- `f"{schema} objetos extras no destino: {sorted(extra)}"` (line 153). -/
def extraMsg (s : String) (names : List String) : String :=
  s ++ " objetos extras no destino: " ++ pyReprList names

/-- `source_set - target_set`, sorted. -/
def schemaMissing (src tgt : String → List String) (s : String) : List String :=
  (setList (src s)).filter (fun x => !((setList (tgt s)).contains x))

/-- `target_set - source_set`, sorted. -/
def schemaExtra (src tgt : String → List String) (s : String) : List String :=
  (setList (tgt s)).filter (fun x => !((setList (src s)).contains x))

/-- The zero, one or two message lines of one schema in `_compare_sets`. -/
def perSchemaMsgs (src tgt : String → List String) (s : String) : List String :=
  (if (schemaMissing src tgt s).isEmpty then [] else [missingMsg s (schemaMissing src tgt s)]) ++
  (if (schemaExtra src tgt s).isEmpty then [] else [extraMsg s (schemaExtra src tgt s)])

/-- `OracleValidator._compare_sets` (lines 128–156): per schema, fetch the
two name sets, compute the two differences, and append the message lines. -/
def compare_sets (src tgt : String → List String) (schemas : List String) : List String :=
  schemas.foldl (fun acc s => acc ++ perSchemaMsgs src tgt s) []

/-- ASCII upper-casing, Python `str.upper()` on the identifiers involved. -/
def pyUpper (s : String) : String := ⟨s.data.map Char.toUpper⟩

/-- Substring containment on character lists (Python `in` on strings). -/
def infixCh : List Char → List Char → Bool
  | n, [] => n.isEmpty
  | n, c :: rest => n.isPrefixOf (c :: rest) || infixCh n rest

def strContains (needle hay : String) : Bool := infixCh needle.data hay.data

/-- Catalogs as seen by `_compare_objects`: per owner, the
`(OBJECT_NAME, OBJECT_TYPE)` rows of `ALL_OBJECTS`. -/
structure ObjDb where
  src : String → List (String × String)
  tgt : String → List (String × String)

/-- `OracleValidator._fetch_names` for the `ALL_OBJECTS` query of
`_compare_objects`: `SELECT OBJECT_NAME FROM ALL_OBJECTS WHERE owner = ...`
— note there is no filter on `OBJECT_TYPE`. -/
def fetch_names (cat : String → List (String × String)) (owner : String) : List String :=
  (cat owner).map Prod.fst

/-- `OracleValidator._compare_objects` (lines 211–229): compare the full
object-name sets, then keep only the mismatch messages whose upper-cased
text contains the category name — falling back to all messages when none
does (`[...] or detail.mismatches`). -/
def compare_objects (db : ObjDb) (objType : String) (schemas : List String) : List String :=
  let ms := compare_sets (fetch_names db.src) (fetch_names db.tgt) schemas
  let filtered := ms.filter (fun m => strContains (pyUpper objType) (pyUpper m))
  if filtered.isEmpty then ms else filtered

/-- Following the words of the spec rather than the code, for contrast: fetch,
per schema, only the names of the objects **of the given category** and
report the two difference lines with no message post-filtering. -/
def compare_objects_spec (db : ObjDb) (objType : String) (schemas : List String) : List String :=
  compare_sets
    (fun s => ((db.src s).filter (fun r => r.2 == objType)).map Prod.fst)
    (fun s => ((db.tgt s).filter (fun r => r.2 == objType)).map Prod.fst)
    schemas

/-! ## Concrete example inputs used by witnesses and counterexamples -/

/-- The C1 example input (the quoted text x;y between two statements;
quotes written via `squote`). -/
def exSplitInput : String :=
  "A; " ++ String.singleton squote ++ "x;y" ++ String.singleton squote ++ "; B"

/-- The C1 example output: three statements, the middle one quoted. -/
def exSplitOutput : List String :=
  ["A", String.singleton squote ++ "x;y" ++ String.singleton squote, "B"]

/-- A drop environment where everything succeeds. -/
def dropEnvOk : DropEnv := ⟨true, ExecResult.ok, ExecResult.ok⟩

/-- Environment for the C3 witness: the first create hits ORA-00955. -/
def envConflict : DdlEnv :=
  { preExists := false, dropPre := dropEnvOk, execFirst := ExecResult.err 955,
    dropConflict := dropEnvOk, execRecreate := ExecResult.ok, sourceLines := [],
    execAllSource := ExecResult.ok, execSplit := ExecResult.ok }

/-- The `ALL_SOURCE` text of the C7 counterexample package. -/
def srcLineC7 : String := "CREATE PACKAGE BODY P IS END X"

/-- The raw (generation-API) DDL of the C7 counterexample package;
deliberately different from the `ALL_SOURCE` text. -/
def rawDdlC7 : String := "CREATE OR REPLACE PACKAGE BODY P WRAPPED"

/-- Environment for the C7 counterexample: first execute fails with
ORA-06550, the `ALL_SOURCE` re-derivation succeeds but executing it fails,
and the split retry succeeds. -/
def envSyntaxPkg : DdlEnv :=
  { preExists := false, dropPre := dropEnvOk, execFirst := ExecResult.err 6550,
    dropConflict := dropEnvOk, execRecreate := ExecResult.ok,
    sourceLines := [(1, srcLineC7)],
    execAllSource := ExecResult.err 6550, execSplit := ExecResult.ok }

/-- Environment for the C7 witness: a view whose create fails with
ORA-00900 and whose split retry succeeds. -/
def envSyntaxView : DdlEnv :=
  { preExists := false, dropPre := dropEnvOk, execFirst := ExecResult.err 900,
    dropConflict := dropEnvOk, execRecreate := ExecResult.ok, sourceLines := [],
    execAllSource := ExecResult.ok, execSplit := ExecResult.ok }

/-- Environment for the C8 counterexample: the create succeeds at once. -/
def envShortTable : DdlEnv :=
  { preExists := false, dropPre := dropEnvOk, execFirst := ExecResult.ok,
    dropConflict := dropEnvOk, execRecreate := ExecResult.ok,
    sourceLines := [(1, "this line is long enough")],
    execAllSource := ExecResult.ok, execSplit := ExecResult.ok }

/-- Environment for the C8 witness: a package body with out-of-order
source lines. -/
def envShortPkg : DdlEnv :=
  { preExists := false, dropPre := dropEnvOk, execFirst := ExecResult.ok,
    dropConflict := dropEnvOk, execRecreate := ExecResult.ok,
    sourceLines := [(2, " IS END P"), (1, "CREATE PACKAGE BODY P")],
    execAllSource := ExecResult.ok, execSplit := ExecResult.ok }

/-- Data-copy environment where the existence query raises ORA-00942. -/
def dataEnvBroken : DataEnv :=
  ⟨fun _ => Except.error 942, fun _ => Except.ok 3⟩

/-- Data-copy environment where the existence query raises, for the C10
witness. -/
def dataEnvErr : DataEnv :=
  ⟨fun _ => Except.error 12541, fun _ => Except.ok 0⟩

/-- Validator database for the C4 counterexample: table `T` is counted on
the source side but the target count raises ORA-00942 (absent table). -/
def tablesDbAbsent : TablesDb :=
  ⟨fun _ => ["T"], fun _ _ => Except.ok 5, fun _ _ => Except.error 942⟩

/-- Validator database where both counts succeed but differ. -/
def tablesDbDiff : TablesDb :=
  ⟨fun _ => ["T"], fun _ _ => Except.ok 5, fun _ _ => Except.ok 3⟩

/-- Validator object catalog for the C5 counterexample: the schema owns a
single object `MYTAB` of type `TABLE` on the source side and nothing on
the target side. -/
def objDbTableOnly : ObjDb :=
  ⟨fun _ => [("MYTAB", "TABLE")], fun _ => []⟩

/-! # Theorems -/

/-! ## Batching lemmas -/

theorem chunkedAux_nil {α : Type} (size n : Nat) (bucket : List α) :
    chunkedAux size [] bucket n = if bucket.isEmpty then [] else [bucket.reverse] := rfl

theorem chunkedAux_cons {α : Type} (size n : Nat) (x : α) (xs bucket : List α) :
    chunkedAux size (x :: xs) bucket n =
      if n + 1 = size then (x :: bucket).reverse :: chunkedAux size xs [] 0
      else chunkedAux size xs (x :: bucket) (n + 1) := rfl

theorem chunkedAux_flatten {α : Type} (size : Nat) :
    ∀ (l bucket : List α) (n : Nat),
      (chunkedAux size l bucket n).flatten = bucket.reverse ++ l := by
  intro l
  induction l with
  | nil =>
    intro bucket n
    cases bucket with
    | nil => simp [chunkedAux_nil]
    | cons c cs => simp [chunkedAux_nil]
  | cons x xs ih =>
    intro bucket n
    rw [chunkedAux_cons]
    by_cases hfull : n + 1 = size
    · rw [if_pos hfull, List.flatten_cons, ih [] 0]
      simp
    · rw [if_neg hfull, ih (x :: bucket) (n + 1)]
      simp

theorem chunkedAux_batches {α : Type} (size : Nat) (hpos : 0 < size) :
    ∀ (l bucket : List α) (n : Nat), n = bucket.length → n < size →
      ∀ b ∈ chunkedAux size l bucket n, b ≠ [] ∧ b.length ≤ size := by
  intro l
  induction l with
  | nil =>
    intro bucket n hn hlt b hb
    cases bucket with
    | nil => simp [chunkedAux_nil] at hb
    | cons c cs =>
      simp only [chunkedAux_nil, List.isEmpty_cons, if_neg] at hb
      simp only [Bool.false_eq_true, if_false, List.mem_singleton] at hb
      subst hb
      refine ⟨by simp, ?_⟩
      simp only [List.length_reverse]
      subst hn
      omega
  | cons x xs ih =>
    intro bucket n hn hlt b hb
    rw [chunkedAux_cons] at hb
    by_cases hfull : n + 1 = size
    · rw [if_pos hfull, List.mem_cons] at hb
      rcases hb with hb | hb
      · subst hb
        refine ⟨by simp, ?_⟩
        simp only [List.length_reverse, List.length_cons]
        omega
      · exact ih [] 0 rfl hpos b hb
    · rw [if_neg hfull] at hb
      exact ih (x :: bucket) (n + 1) (by simp [hn]) (by omega) b hb

theorem chunkedAux_dropLast {α : Type} (size : Nat) :
    ∀ (l bucket : List α) (n : Nat), n = bucket.length →
      ∀ b ∈ (chunkedAux size l bucket n).dropLast, b.length = size := by
  intro l
  induction l with
  | nil =>
    intro bucket n _ b hb
    cases bucket with
    | nil => simp [chunkedAux_nil] at hb
    | cons c cs => simp [chunkedAux_nil] at hb
  | cons x xs ih =>
    intro bucket n hn b hb
    rw [chunkedAux_cons] at hb
    by_cases hfull : n + 1 = size
    · rw [if_pos hfull] at hb
      rcases hr : chunkedAux size xs ([] : List α) 0 with _ | ⟨y, ys⟩
      · rw [hr] at hb
        simp at hb
      · rw [hr] at hb
        have hdl : ((x :: bucket).reverse :: y :: ys).dropLast
            = (x :: bucket).reverse :: (y :: ys).dropLast := rfl
        rw [hdl, List.mem_cons] at hb
        rcases hb with hb | hb
        · subst hb
          simp only [List.length_reverse, List.length_cons]
          omega
        · exact ih [] 0 rfl b (by rw [hr]; exact hb)
    · rw [if_neg hfull] at hb
      exact ih (x :: bucket) (n + 1) (by simp [hn]) b hb

theorem count_commit {α : Type} (batches : List (List α)) :
    ((batches.map InsEvent.ins) ++ [InsEvent.commit]).countP isCommit = 1 := by
  induction batches with
  | nil => rfl
  | cons b bs ih => simp [List.countP_cons, isCommit, ih]

/-- C2 counterexample: `_insert_rows` is a no-op on an empty row list — no
insert call and, contrary to the claimed "exactly one commit is issued per
table", no commit at all. -/
theorem insert_rows_empty_counterexample :
    insert_rows ([] : List Nat) 500 = [] ∧
    (insert_rows ([] : List Nat) 500).countP isCommit = 0 := by
  exact ⟨rfl, rfl⟩

/-- C2 (amended: "for every **non-empty** list of rows"): with a positive
batch size `b` and a non-empty row list, `chunked` groups the rows in
order into batches whose concatenation is the original list, every batch
is non-empty with at most `b` rows, every batch except possibly the last
has exactly `b` rows, `_insert_rows` issues one insert call per batch
followed by exactly one commit, and in particular 1250 rows with batch
size 500 produce batches of 500, 500 and 250 rows and a single commit. -/
theorem insert_rows_batching {α : Type} (rows : List α) (b : Nat)
    (hb : 0 < b) (hrows : rows ≠ []) :
    (chunked rows b).flatten = rows ∧
    (∀ batch ∈ chunked rows b, batch ≠ [] ∧ batch.length ≤ b) ∧
    (∀ batch ∈ (chunked rows b).dropLast, batch.length = b) ∧
    insert_rows rows b = ((chunked rows b).map InsEvent.ins) ++ [InsEvent.commit] ∧
    (insert_rows rows b).countP isCommit = 1 ∧
    ((chunked (List.replicate 1250 (0 : Nat)) 500).map List.length = [500, 500, 250] ∧
      (insert_rows (List.replicate 1250 (0 : Nat)) 500).countP isCommit = 1) := by
  have hins : insert_rows rows b = ((chunked rows b).map InsEvent.ins) ++ [InsEvent.commit] := by
    cases rows with
    | nil => exact absurd rfl hrows
    | cons x xs => rfl
  refine ⟨?_, ?_, ?_, hins, ?_, ?_, ?_⟩
  · simpa using chunkedAux_flatten b rows [] 0
  · exact chunkedAux_batches b hb rows [] 0 rfl hb
  · exact chunkedAux_dropLast b rows [] 0 rfl
  · rw [hins]
    exact count_commit _
  · set_option maxRecDepth 100000 in decide
  · set_option maxRecDepth 100000 in decide

/-- Witness for C2 at the example input of the claim. -/
theorem insert_rows_batching_witness :
    (0 < 500 ∧ List.replicate 1250 (0 : Nat) ≠ []) ∧
    (chunked (List.replicate 1250 (0 : Nat)) 500).flatten = List.replicate 1250 (0 : Nat) := by
  exact ⟨⟨by decide, by decide⟩,
    (insert_rows_batching (List.replicate 1250 (0 : Nat)) 500 (by decide) (by decide)).1⟩

/-! ## Data-copy lemmas -/

theorem copy_data_go (env : DataEnv) (schema : String) :
    ∀ (tables : List String) (acc : List DataAct × List String × Nat),
      tables.foldl (dataStep env schema) acc =
        (acc.1 ++ tables.flatMap (fun t => (processTable env t).1),
         acc.2.1 ++ (tables.filter (fun t => !existsTgt env t)).map (fun t => schema ++ "." ++ t),
         acc.2.2 + (tables.map (fun t => (processTable env t).2.2)).sum) := by
  intro tables
  induction tables with
  | nil => intro acc; simp
  | cons t ts ih =>
    intro acc
    rw [List.foldl_cons, ih]
    cases he : existsTgt env t with
    | false =>
      simp [dataStep, processTable, he, List.append_assoc, Nat.add_assoc]
    | true =>
      cases hc : env.copyRes t with
      | ok n =>
        simp [dataStep, processTable, he, hc, List.append_assoc, Nat.add_assoc]
      | error e =>
        simp [dataStep, processTable, he, hc, List.append_assoc, Nat.add_assoc]

theorem copy_data_missing_eq (env : DataEnv) (schema : String) (tables : List String) :
    (copy_data env schema tables).2.1 =
      (tables.filter (fun t => !existsTgt env t)).map (fun t => schema ++ "." ++ t) := by
  simp [copy_data, copy_data_go]

theorem copy_data_trace_eq (env : DataEnv) (schema : String) (tables : List String) :
    (copy_data env schema tables).1 =
      tables.flatMap (fun t => (processTable env t).1) ++
        [DataAct.report
          ((tables.filter (fun t => !existsTgt env t)).map (fun t => schema ++ "." ++ t))] := by
  simp [copy_data, copy_data_go]

/-- C9: in `_copy_data`, every source table absent from the target is
recorded (in order) under the distinct missing classification
`"schema.table"` with no truncate/insert attempt for it; the missing list
is reported at the end of the phase; a row-copy error on an existing table
is caught, leaves no missing classification, and every table is still
processed. -/
theorem copy_data_missing_classification (env : DataEnv) (schema : String)
    (tables : List String) :
    (copy_data env schema tables).2.1 =
      (tables.filter (fun t => !existsTgt env t)).map (fun t => schema ++ "." ++ t) ∧
    (copy_data env schema tables).1 =
      tables.flatMap (fun t => (processTable env t).1) ++
        [DataAct.report
          ((tables.filter (fun t => !existsTgt env t)).map (fun t => schema ++ "." ++ t))] ∧
    (∀ t, existsTgt env t = false →
      processTable env t = ([DataAct.check t], some t, 0)) ∧
    (∀ t e, existsTgt env t = true → env.copyRes t = Except.error e →
      processTable env t = ([DataAct.check t, DataAct.attempt t], none, 0)) ∧
    (∀ t, existsTgt env t = false →
      DataAct.attempt t ∉ (copy_data env schema tables).1) := by
  refine ⟨copy_data_missing_eq env schema tables, copy_data_trace_eq env schema tables,
    ?_, ?_, ?_⟩
  · intro t ht
    simp [processTable, ht]
  · intro t e ht hc
    simp [processTable, ht, hc]
  · intro t ht hmem
    rw [copy_data_trace_eq, List.mem_append] at hmem
    rcases hmem with hmem | hmem
    · rw [List.mem_flatMap] at hmem
      obtain ⟨t2, _, hact⟩ := hmem
      cases he2 : existsTgt env t2 with
      | false => simp [processTable, he2] at hact
      | true =>
        cases hc2 : env.copyRes t2 with
        | ok n =>
          simp [processTable, he2, hc2] at hact
          subst hact
          rw [ht] at he2
          exact Bool.noConfusion he2
        | error e =>
          simp [processTable, he2, hc2] at hact
          subst hact
          rw [ht] at he2
          exact Bool.noConfusion he2
    · simp at hmem

/-- Witness for C9: with a broken target catalog query, table `T` is
classified as missing and no copy is attempted for it. -/
theorem copy_data_missing_classification_witness :
    existsTgt dataEnvBroken "T" = false ∧
    DataAct.attempt "T" ∉ (copy_data dataEnvBroken "S" ["T"]).1 := by
  exact ⟨rfl,
    (copy_data_missing_classification dataEnvBroken "S" ["T"]).2.2.2.2 "T" rfl⟩

/-- C10: `_table_exists` never propagates a query failure — every raised
exception yields `false`, a successful count yields `count > 0`, and
consequently a table whose existence query fails on the target is
classified as missing by `_copy_data` rather than surfaced as an error. -/
theorem table_exists_total :
    (∀ e, table_exists (Except.error e) = false) ∧
    (∀ n, table_exists (Except.ok n) = decide (0 < n)) ∧
    (∀ (env : DataEnv) (schema : String) (tables : List String) (t : String) (e : Nat),
      env.existsQuery t = Except.error e → t ∈ tables →
      (schema ++ "." ++ t) ∈ (copy_data env schema tables).2.1) := by
  refine ⟨fun e => rfl, fun n => rfl, ?_⟩
  intro env schema tables t e hq ht
  rw [copy_data_missing_eq]
  refine List.mem_map.mpr ⟨t, ?_, rfl⟩
  refine List.mem_filter.mpr ⟨ht, ?_⟩
  simp [existsTgt, table_exists, hq]

/-- Witness for C10. -/
theorem table_exists_total_witness :
    (dataEnvErr.existsQuery "T" = Except.error 12541 ∧ "T" ∈ ["T"]) ∧
    ("S" ++ "." ++ "T") ∈ (copy_data dataEnvErr "S" ["T"]).2.1 := by
  exact ⟨⟨rfl, by decide⟩,
    table_exists_total.2.2 dataEnvErr "S" ["T"] "T" 12541 rfl (by decide)⟩

/-! ## DDL replication lemmas -/

theorem copy_objects_go :
    ∀ (objs : List (ObjType × String × DdlEnv)) (acc : Nat × List Outcome),
      objs.foldl
        (fun acc o =>
          let out := (copy_obj o.1 o.2.1 o.2.2).1
          (acc.1 + (if out = Outcome.applied then 1 else 0), acc.2 ++ [out])) acc =
      (acc.1 + (objs.map (fun o => (copy_obj o.1 o.2.1 o.2.2).1)).countP
          (fun out => out == Outcome.applied),
       acc.2 ++ objs.map (fun o => (copy_obj o.1 o.2.1 o.2.2).1)) := by
  intro objs
  induction objs with
  | nil => intro acc; simp
  | cons o os ih =>
    intro acc
    rw [List.foldl_cons, ih]
    rw [Prod.ext_iff]
    constructor
    · simp only [List.map_cons, List.countP_cons, beq_iff_eq]
      split <;> simp_arith
    · simp

theorem copy_objects_outcomes (objs : List (ObjType × String × DdlEnv)) :
    (copy_objects objs).2 = objs.map (fun o => (copy_obj o.1 o.2.1 o.2.2).1) := by
  rw [copy_objects, copy_objects_go]
  simp

theorem copy_objects_length (objs : List (ObjType × String × DdlEnv)) :
    (copy_objects objs).2.length = objs.length := by
  rw [copy_objects_outcomes, List.length_map]

theorem drop_table_trace_bound (d : DropEnv) : (drop_table d).2.length ≤ 3 := by
  rcases d with ⟨te, ca, pl⟩
  cases te <;> cases ca <;> cases pl <;> simp [drop_table]

theorem materialize_trace_bound (t : ObjType) (d0 : String) (env : DdlEnv) :
    (materialize t d0 env).2.length ≤ 1 := by
  unfold materialize
  split
  · split
    · rcases get_package_ddl_from_source env.sourceLines with _ | _ <;> simp
    · simp
  · simp

theorem preTable_trace_bound (t : ObjType) (env : DdlEnv) :
    (preTable t env).length ≤ 4 := by
  have hd := drop_table_trace_bound env.dropPre
  unfold preTable
  split
  · split
    · simp only [List.length_cons]
      omega
    · simp
  · simp

theorem baseTrace_bound (t : ObjType) (d0 : String) (env : DdlEnv) :
    (baseTrace t d0 env).length ≤ 6 := by
  have h1 := materialize_trace_bound t d0 env
  have h2 := preTable_trace_bound t env
  simp only [baseTrace, List.length_append, List.length_cons, List.length_nil]
  omega

theorem copy_obj_trace_bound (t : ObjType) (d0 : String) (env : DdlEnv) :
    (copy_obj t d0 env).2.length ≤ 10 := by
  have hb := baseTrace_bound t d0 env
  have hd := drop_table_trace_bound env.dropConflict
  have hif : (if env.execSplit = ExecResult.ok then [Action.commit] else []).length ≤ 1 := by
    split
    · simp
    · simp
  rcases henv : env.execFirst with _ | c
  · simp only [copy_obj, henv]
    exact le_trans hb (by omega)
  · simp only [copy_obj, henv]
    by_cases h1 : isConflictCode c = true
    · rw [if_pos h1]
      by_cases h2 : t = ObjType.TABLE
      · rw [if_pos h2]
        by_cases h3 : (drop_table env.dropConflict).1 = true
        · rw [if_pos h3]
          simp only [List.length_append, List.length_cons, List.length_nil]
          omega
        · rw [if_neg h3]
          simp only [List.length_append]
          omega
      · rw [if_neg h2]
        exact le_trans hb (by omega)
    · rw [if_neg h1]
      by_cases h2 : isSyntaxCode c = true
      · rw [if_pos h2]
        by_cases h3 : (isPkg t && (c = 900 || c = 6550)) = true
        · rw [if_pos h3]
          rcases hg : get_package_ddl_from_source env.sourceLines with _ | d2
          · simp only [hg, splitRetry, List.length_append, List.length_cons, List.length_nil]
            omega
          · rcases ha : env.execAllSource with _ | ec
            · simp only [hg, ha, List.length_append, List.length_cons, List.length_nil]
              omega
            · simp only [hg, ha, splitRetry, List.length_append, List.length_cons,
                List.length_nil]
              omega
        · rw [if_neg h3]
          simp only [splitRetry, List.length_append, List.length_cons, List.length_nil]
          omega
      · rw [if_neg h2]
        exact le_trans hb (by omega)

/-- C3: when applying the DDL of an object raises an already-exists error
(955/2264/1430), a non-table object is counted as applied and the loop
continues; a table (that the existence check sees) is dropped first with
`CASCADE CONSTRAINTS`, falling back to a plain `DROP` when the cascade
drop fails, and is then re-created from the same DDL; and the per-category
loop always processes every object. -/
theorem copy_ddl_conflict_recovery (t : ObjType) (d0 : String) (env : DdlEnv) (c : Nat)
    (hc : isConflictCode c = true) (hf : env.execFirst = ExecResult.err c) :
    (t ≠ ObjType.TABLE → copy_obj t d0 env = (Outcome.applied, baseTrace t d0 env)) ∧
    (t = ObjType.TABLE → env.dropConflict.tabExists = true →
      ((env.dropConflict.cascade = ExecResult.ok →
        copy_obj t d0 env =
          (outcomeOf env.execRecreate,
           baseTrace t d0 env ++
             [Action.checkExists, Action.dropCascade,
              Action.execDdl (materializedDdl t d0 env)])) ∧
       (∀ e, env.dropConflict.cascade = ExecResult.err e →
          env.dropConflict.plain = ExecResult.ok →
          copy_obj t d0 env =
            (outcomeOf env.execRecreate,
             baseTrace t d0 env ++
               [Action.checkExists, Action.dropCascade, Action.dropPlain,
                Action.execDdl (materializedDdl t d0 env)])) ∧
       (∀ e e2, env.dropConflict.cascade = ExecResult.err e →
          env.dropConflict.plain = ExecResult.err e2 →
          copy_obj t d0 env =
            (Outcome.failedSkipped,
             baseTrace t d0 env ++
               [Action.checkExists, Action.dropCascade, Action.dropPlain])))) ∧
    (∀ objs, (copy_objects objs).2.length = objs.length) := by
  refine ⟨?_, ?_, fun objs => copy_objects_length objs⟩
  · intro hne
    simp [copy_obj, hf, hc, hne]
  · intro htab hex
    subst htab
    refine ⟨?_, ?_, ?_⟩
    · intro hca
      have hd : drop_table env.dropConflict = (true, [Action.checkExists, Action.dropCascade]) := by
        simp [drop_table, hex, hca]
      simp [copy_obj, hf, hc, hd]
    · intro e hca hpl
      have hd : drop_table env.dropConflict =
          (true, [Action.checkExists, Action.dropCascade, Action.dropPlain]) := by
        simp [drop_table, hex, hca, hpl]
      simp [copy_obj, hf, hc, hd]
    · intro e e2 hca hpl
      have hd : drop_table env.dropConflict =
          (false, [Action.checkExists, Action.dropCascade, Action.dropPlain]) := by
        simp [drop_table, hex, hca, hpl]
      simp [copy_obj, hf, hc, hd]

/-- Witness for C3: a view hitting ORA-00955 is counted as applied. -/
theorem copy_ddl_conflict_recovery_witness :
    (isConflictCode 955 = true ∧ envConflict.execFirst = ExecResult.err 955) ∧
    copy_obj ObjType.VIEW "CREATE VIEW V AS SELECT 1 FROM DUAL" envConflict =
      (Outcome.applied,
       baseTrace ObjType.VIEW "CREATE VIEW V AS SELECT 1 FROM DUAL" envConflict) := by
  exact ⟨⟨rfl, rfl⟩,
    (copy_ddl_conflict_recovery ObjType.VIEW "CREATE VIEW V AS SELECT 1 FROM DUAL"
      envConflict 955 rfl rfl).1 (by decide)⟩

/-- C7 counterexample: for a package body whose create fails with
ORA-06550 and whose `ALL_SOURCE` re-derivation is obtained but fails to
execute, the split retry operates on the re-derived DDL, **not** on the
raw DDL as the claim states. -/
theorem copy_ddl_syntax_retry_counterexample :
    Action.splitExec (clean_ddl srcLineC7) ∈
      (copy_obj ObjType.PACKAGE_BODY rawDdlC7 envSyntaxPkg).2 ∧
    Action.splitExec (clean_ddl rawDdlC7) ∉
      (copy_obj ObjType.PACKAGE_BODY rawDdlC7 envSyntaxPkg).2 ∧
    clean_ddl srcLineC7 ≠ clean_ddl rawDdlC7 := by
  decide

/-- C7 (amended): on a syntax/parse-class error (900/911/6550) the
replicator performs at most one clean-and-split retry, swallowing the
original error when the retry succeeds and recording the object as failed
otherwise; for packages and package bodies with codes 900/6550 an
`ALL_SOURCE` re-derivation is attempted first (one extra execution
attempt), and when the re-derived DDL is obtained the split retry operates
on it rather than on the raw DDL; the per-object trace is bounded and a
failed object never stops the loop. -/
theorem copy_ddl_syntax_retry (t : ObjType) (d0 : String) (env : DdlEnv) (c : Nat)
    (hs : isSyntaxCode c = true) (hf : env.execFirst = ExecResult.err c) :
    ((isPkg t && (c = 900 || c = 6550)) = false →
      copy_obj t d0 env =
        (outcomeOf env.execSplit,
         baseTrace t d0 env ++
           [Action.splitExec (clean_ddl (materializedDdl t d0 env))] ++
           (if env.execSplit = ExecResult.ok then [Action.commit] else []))) ∧
    ((isPkg t && (c = 900 || c = 6550)) = true →
      (∀ d2, get_package_ddl_from_source env.sourceLines = Except.ok d2 →
        (env.execAllSource = ExecResult.ok →
          copy_obj t d0 env =
            (Outcome.applied,
             baseTrace t d0 env ++ [Action.fetchSource, Action.execDdl d2])) ∧
        (∀ e, env.execAllSource = ExecResult.err e →
          copy_obj t d0 env =
            (outcomeOf env.execSplit,
             baseTrace t d0 env ++
               [Action.fetchSource, Action.execDdl d2,
                Action.splitExec (clean_ddl d2)] ++
               (if env.execSplit = ExecResult.ok then [Action.commit] else [])))) ∧
      (get_package_ddl_from_source env.sourceLines = Except.error () →
        copy_obj t d0 env =
          (outcomeOf env.execSplit,
           baseTrace t d0 env ++
             [Action.fetchSource,
              Action.splitExec (clean_ddl (materializedDdl t d0 env))] ++
             (if env.execSplit = ExecResult.ok then [Action.commit] else [])))) ∧
    ((copy_obj t d0 env).2.length ≤ 10) ∧
    (∀ objs, (copy_objects objs).2.length = objs.length) := by
  have hnc : isConflictCode c = false := by
    simp only [isSyntaxCode, Bool.or_eq_true, decide_eq_true_eq] at hs
    rcases hs with (h | h) | h <;> subst h <;> rfl
  refine ⟨?_, ?_, copy_obj_trace_bound t d0 env, fun objs => copy_objects_length objs⟩
  · intro hnp
    simp [copy_obj, hf, hnc, hs, hnp, splitRetry]
  · intro hp
    refine ⟨?_, ?_⟩
    · intro d2 hg
      refine ⟨?_, ?_⟩
      · intro ha
        simp [copy_obj, hf, hnc, hs, hp, hg, ha]
      · intro e ha
        simp [copy_obj, hf, hnc, hs, hp, hg, ha, splitRetry]
    · intro hg
      simp [copy_obj, hf, hnc, hs, hp, hg, splitRetry]

/-- Witness for C7: a view hitting ORA-00900 goes through the split retry
on its own DDL and is applied when the retry succeeds. -/
theorem copy_ddl_syntax_retry_witness :
    (isSyntaxCode 900 = true ∧ envSyntaxView.execFirst = ExecResult.err 900) ∧
    copy_obj ObjType.VIEW "CREATE VIEW V BROKEN" envSyntaxView =
      (outcomeOf envSyntaxView.execSplit,
       baseTrace ObjType.VIEW "CREATE VIEW V BROKEN" envSyntaxView ++
         [Action.splitExec
           (clean_ddl (materializedDdl ObjType.VIEW "CREATE VIEW V BROKEN" envSyntaxView))] ++
         (if envSyntaxView.execSplit = ExecResult.ok then [Action.commit] else [])) := by
  exact ⟨⟨rfl, rfl⟩,
    (copy_ddl_syntax_retry ObjType.VIEW "CREATE VIEW V BROKEN" envSyntaxView 900
      rfl rfl).1 (by decide)⟩

/-- C8 counterexample: a table whose materialized DDL is shorter than 10
characters after trimming is **not** re-derived from `ALL_SOURCE` — the
short DDL is applied as it is and no source fetch appears in the trace
(the claim asserts the fallback "for every object"). -/
theorem short_ddl_fallback_counterexample :
    (pStrip "X").length < 10 ∧
    copy_obj ObjType.TABLE "X" envShortTable =
      (Outcome.applied, [Action.checkExists, Action.execDdl "X"]) ∧
    Action.fetchSource ∉ (copy_obj ObjType.TABLE "X" envShortTable).2 := by
  decide

/-- C8 (amended: the short-DDL fallback applies only to `PACKAGE` and
`PACKAGE_BODY` objects): when the trimmed materialized DDL has fewer than
10 characters, a package or package body is re-derived by concatenating
its `ALL_SOURCE` line fragments ordered by line number (keeping the
original text when the re-derivation fails), every other category keeps
the short DDL, and the DDL so chosen is the one then applied to the
target. -/
theorem short_ddl_fallback (t : ObjType) (d0 : String) (env : DdlEnv)
    (hshort : (pStrip d0).length < 10) :
    (isPkg t = true →
      (∀ d2, get_package_ddl_from_source env.sourceLines = Except.ok d2 →
        materialize t d0 env = (d2, [Action.fetchSource]) ∧
        d2 = String.join ((sortByLine env.sourceLines).map Prod.snd) ∧
        10 ≤ (pStrip d2).length) ∧
      (get_package_ddl_from_source env.sourceLines = Except.error () →
        materialize t d0 env = (d0, [Action.fetchSource]))) ∧
    (isPkg t = false → materialize t d0 env = (d0, [])) ∧
    ((sortByLine env.sourceLines).Perm env.sourceLines ∧
      List.Sorted (fun a b => a.1 ≤ b.1) (sortByLine env.sourceLines)) ∧
    (env.execFirst = ExecResult.ok →
      copy_obj t d0 env = (Outcome.applied, baseTrace t d0 env)) ∧
    baseTrace t d0 env =
      (materialize t d0 env).2 ++ preTable t env ++
        [Action.execDdl (materializedDdl t d0 env)] := by
  refine ⟨?_, ?_, ⟨List.perm_insertionSort _ _, List.sorted_insertionSort _ _⟩, ?_, rfl⟩
  · intro hp
    constructor
    · intro d2 hg
      have hjoin : d2 = String.join ((sortByLine env.sourceLines).map Prod.snd) ∧
          10 ≤ (pStrip d2).length := by
        by_cases hlen :
          (pStrip (String.join ((sortByLine env.sourceLines).map Prod.snd))).length < 10
        · simp [get_package_ddl_from_source, hlen] at hg
        · simp only [get_package_ddl_from_source, if_neg hlen, Except.ok.injEq] at hg
          subst hg
          exact ⟨rfl, by omega⟩
      exact ⟨by simp [materialize, hshort, hp, hg], hjoin⟩
    · intro hg
      simp [materialize, hshort, hp, hg]
  · intro hp
    simp [materialize, hshort, hp]
  · intro hok
    simp [copy_obj, hok]

/-- Witness for C8: a package body with a 1-character DDL is re-derived
from its `ALL_SOURCE` lines, joined in line order. -/
theorem short_ddl_fallback_witness :
    ((pStrip "X").length < 10 ∧ isPkg ObjType.PACKAGE_BODY = true ∧
      get_package_ddl_from_source envShortPkg.sourceLines =
        Except.ok "CREATE PACKAGE BODY P IS END P") ∧
    materialize ObjType.PACKAGE_BODY "X" envShortPkg =
      ("CREATE PACKAGE BODY P IS END P", [Action.fetchSource]) := by
  refine ⟨⟨by decide, rfl, by rfl⟩, ?_⟩
  exact (((short_ddl_fallback ObjType.PACKAGE_BODY "X" envShortPkg (by decide)).1 rfl).1
    "CREATE PACKAGE BODY P IS END P" (by rfl)).1

/-! ## Validator lemmas -/

theorem countTablesAux_ok (db : TablesDb) (s : String) :
    ∀ (tables : List String) (acc : List String),
      (∀ t ∈ tables, (∃ a, db.sourceCount s t = Except.ok a) ∧
        (∃ b, db.targetCount s t = Except.ok b)) →
      countTablesAux db s tables acc =
        Except.ok (acc ++ tables.filterMap
          (fun t =>
            match db.sourceCount s t, db.targetCount s t with
            | .ok a, .ok b => if a ≠ b then some (tableMsg s t a b) else none
            | _, _ => none)) := by
  intro tables
  induction tables with
  | nil => intro acc _; simp [countTablesAux]
  | cons t ts ih =>
    intro acc h
    obtain ⟨⟨a, ha⟩, b, hb⟩ := h t (by simp)
    have hrec := fun acc2 => ih acc2 (fun t2 ht2 => h t2 (by simp [ht2]))
    by_cases hab : a = b
    · subst hab
      rw [show countTablesAux db s (t :: ts) acc = countTablesAux db s ts acc from by
        simp [countTablesAux, ha, hb]]
      rw [hrec acc, List.filterMap_cons]
      simp [ha, hb]
    · rw [show countTablesAux db s (t :: ts) acc =
          countTablesAux db s ts (acc ++ [tableMsg s t a b]) from by
        simp [countTablesAux, ha, hb, hab]]
      rw [hrec (acc ++ [tableMsg s t a b]), List.filterMap_cons]
      simp [ha, hb, hab, List.append_assoc]

theorem validate_tables_go_ok (db : TablesDb) :
    ∀ (schemas : List String) (acc : List String),
      (∀ s ∈ schemas, ∀ t ∈ db.sourceTables s,
        (∃ a, db.sourceCount s t = Except.ok a) ∧
        (∃ b, db.targetCount s t = Except.ok b)) →
      validate_tables_go db schemas acc =
        Except.ok (acc ++ schemas.flatMap (schemaTableMismatches db)) := by
  intro schemas
  induction schemas with
  | nil => intro acc _; simp [validate_tables_go]
  | cons s ss ih =>
    intro acc h
    have hs : countTablesAux db s (db.sourceTables s) acc =
        Except.ok (acc ++ schemaTableMismatches db s) :=
      countTablesAux_ok db s (db.sourceTables s) acc (fun t ht => h s (by simp) t ht)
    simp only [validate_tables_go, hs]
    rw [ih (acc ++ schemaTableMismatches db s) (fun s2 hs2 => h s2 (by simp [hs2]))]
    simp [List.append_assoc]

/-- C4 counterexample: a table absent from the target makes the target-side
`SELECT COUNT(*)` raise, and `_validate_tables` propagates the exception —
the run aborts instead of appending a mismatch line; moreover the message
format actually produced uses `origem=`/`destino=`, not
`source=`/`target=`. -/
theorem validator_tables_counterexample :
    validate_tables tablesDbAbsent ["S"] = Except.error 942 ∧
    validate_tables tablesDbDiff ["S"] = Except.ok ["S.T: origem=5 destino=3"] ∧
    "S.T: origem=5 destino=3" ≠ "S.T: source=5 target=3" := by
  exact ⟨rfl, rfl, by decide⟩

/-- C4 (amended): when every count query succeeds, `_validate_tables`
compares the row counts of every source-catalog table and appends one
`"<schema>.<table>: origem=<n> destino=<m>"` line per mismatch; but when a
target count raises (e.g. the table is absent from the target), the
exception propagates and aborts the validation run. -/
theorem validator_tables_behavior (db : TablesDb) (schemas : List String)
    (hok : ∀ s ∈ schemas, ∀ t ∈ db.sourceTables s,
      (∃ a, db.sourceCount s t = Except.ok a) ∧
      (∃ b, db.targetCount s t = Except.ok b)) :
    validate_tables db schemas = Except.ok (tableMismatches db schemas) ∧
    (∀ (db2 : TablesDb) (s tbl : String) (rest : List String) (e sc : Nat),
      db2.sourceTables s = tbl :: rest → db2.sourceCount s tbl = Except.ok sc →
      db2.targetCount s tbl = Except.error e →
      validate_tables db2 [s] = Except.error e) := by
  constructor
  · rw [validate_tables, validate_tables_go_ok db schemas [] hok]
    simp [tableMismatches]
  · intro db2 s tbl rest e sc hts hsc htc
    simp [validate_tables, validate_tables_go, hts, countTablesAux, hsc, htc]

/-- Witness for C4 at a concrete database with one mismatching table. -/
theorem validator_tables_behavior_witness :
    validate_tables tablesDbDiff ["S"] = Except.ok (tableMismatches tablesDbDiff ["S"]) := by
  exact (validator_tables_behavior tablesDbDiff ["S"]
    (fun s _ t _ => ⟨⟨5, rfl⟩, ⟨3, rfl⟩⟩)).1

theorem foldl_append_flatMap {γ : Type} (f : γ → List String) :
    ∀ (l : List γ) (acc : List String),
      l.foldl (fun a s => a ++ f s) acc = acc ++ l.flatMap f := by
  intro l
  induction l with
  | nil => intro acc; simp
  | cons s ss ih =>
    intro acc
    rw [List.foldl_cons, ih]
    simp

theorem mem_setList (l : List String) (x : String) : x ∈ setList l ↔ x ∈ l := by
  unfold setList
  rw [(List.perm_insertionSort _ _).mem_iff, List.mem_dedup]

/-- C5 counterexample: comparing the `VIEW` category over a schema whose
only source object is the table `MYTAB` reports a mismatch naming `MYTAB`
(because `_fetch_names` does not filter `ALL_OBJECTS` by category and the
message post-filter falls back to all messages), whereas fetching only the
names of the claimed category would report nothing. -/
theorem compare_objects_counterexample :
    compare_objects objDbTableOnly "VIEW" ["S"] = [missingMsg "S" ["MYTAB"]] ∧
    compare_objects_spec objDbTableOnly "VIEW" ["S"] = [] ∧
    compare_objects objDbTableOnly "VIEW" ["S"] ≠
      compare_objects_spec objDbTableOnly "VIEW" ["S"] := by
  refine ⟨by decide, by decide, by decide⟩

/-- C5 (amended): for each secondary category the validator fetches, per
schema, the names of **all** objects owned by the schema (the
`ALL_OBJECTS` query has no category filter), computes the two sorted
duplicate-free set differences, emits one `faltando no destino` line and
one `objetos extras no destino` line per schema when non-empty, and then
keeps only the messages containing the category name as a case-insensitive
substring — falling back to all messages when none contains it. -/
theorem compare_objects_behavior (src tgt : String → List String)
    (schemas : List String) (db : ObjDb) (objType : String) :
    compare_sets src tgt schemas = schemas.flatMap (perSchemaMsgs src tgt) ∧
    (∀ s x, x ∈ schemaMissing src tgt s ↔ x ∈ src s ∧ x ∉ tgt s) ∧
    (∀ s x, x ∈ schemaExtra src tgt s ↔ x ∈ tgt s ∧ x ∉ src s) ∧
    (∀ s, List.Sorted (fun a b => a ≤ b) (schemaMissing src tgt s) ∧
      (schemaMissing src tgt s).Nodup ∧
      List.Sorted (fun a b => a ≤ b) (schemaExtra src tgt s) ∧
      (schemaExtra src tgt s).Nodup) ∧
    compare_objects db objType schemas =
      (if ((compare_sets (fetch_names db.src) (fetch_names db.tgt) schemas).filter
            (fun m => strContains (pyUpper objType) (pyUpper m))).isEmpty
       then compare_sets (fetch_names db.src) (fetch_names db.tgt) schemas
       else (compare_sets (fetch_names db.src) (fetch_names db.tgt) schemas).filter
            (fun m => strContains (pyUpper objType) (pyUpper m))) := by
  refine ⟨?_, ?_, ?_, ?_, rfl⟩
  · rw [compare_sets, foldl_append_flatMap]
    simp
  · intro s x
    unfold schemaMissing
    rw [List.mem_filter, mem_setList]
    simp [mem_setList]
  · intro s x
    unfold schemaExtra
    rw [List.mem_filter, mem_setList]
    simp [mem_setList]
  · intro s
    have hs : ∀ l : List String,
        List.Sorted (fun a b => a ≤ b) (setList l) ∧ (setList l).Nodup := by
      intro l
      refine ⟨List.sorted_insertionSort _ _, ?_⟩
      exact ((List.perm_insertionSort _ _).nodup_iff).mpr (List.nodup_dedup l)
    exact ⟨List.Sorted.filter _ (hs (src s)).1, List.Nodup.filter _ (hs (src s)).2,
      List.Sorted.filter _ (hs (tgt s)).1, List.Nodup.filter _ (hs (tgt s)).2⟩

/-- Witness for C5 at the concrete catalog of the counterexample. -/
theorem compare_objects_behavior_witness :
    "MYTAB" ∈ schemaMissing (fetch_names objDbTableOnly.src)
        (fetch_names objDbTableOnly.tgt) "S" ↔
      "MYTAB" ∈ fetch_names objDbTableOnly.src "S" ∧
        "MYTAB" ∉ fetch_names objDbTableOnly.tgt "S" := by
  exact (compare_objects_behavior (fetch_names objDbTableOnly.src)
    (fetch_names objDbTableOnly.tgt) ["S"] objDbTableOnly "VIEW").2.1 "S" "MYTAB"

/-! ## Statement-splitter lemmas -/

theorem scanStep_escape (st : ScanState) (c : Char) (h : st.escapeNext = true) :
    scanStep st c = { st with current := st.current ++ [c], escapeNext := false } := by
  simp [scanStep, h]

theorem scanStep_backslash (st : ScanState) (c : Char) (h : st.escapeNext = false)
    (hc : c = '\\') :
    scanStep st c = { st with current := st.current ++ [c], escapeNext := true } := by
  subst hc
  simp [scanStep, h]

theorem scanStep_semi_inQuote (st : ScanState) (q : Char) (h : st.escapeNext = false)
    (hq : st.quote = some q) :
    scanStep st ';' = { st with current := st.current ++ [';'] } := by
  have hqc : isQuoteChar ';' = false := by decide
  have hbs : (';' : Char) ≠ '\\' := by decide
  simp [scanStep, h, hq, hqc, hbs]

theorem scanStep_semi_emit (st : ScanState) (h : st.escapeNext = false)
    (hq : st.quote = none) :
    scanStep st ';' =
      { st with statements := emitStmt st.current st.statements, current := [] } := by
  have hqc : isQuoteChar ';' = false := by decide
  have hbs : (';' : Char) ≠ '\\' := by decide
  simp [scanStep, h, hq, hqc, hbs]

/-- Every scanner step either only appends the consumed character to the
current statement, or (exactly when outside any quoted region, unescaped,
on a semicolon) emits the current statement. -/
theorem scanStep_cases (st : ScanState) (c : Char) :
    ((scanStep st c).statements = st.statements ∧
      (scanStep st c).current = st.current ++ [c]) ∨
    (st.escapeNext = false ∧ st.quote = none ∧ c = ';' ∧
      scanStep st c =
        { st with statements := emitStmt st.current st.statements, current := [] }) := by
  by_cases he : st.escapeNext = true
  · left
    simp [scanStep, he]
  · have he2 : st.escapeNext = false := by
      rwa [Bool.not_eq_true] at he
    by_cases hb : c = '\\'
    · left
      subst hb
      simp [scanStep, he2]
    · by_cases hq : isQuoteChar c = true
      · left
        rcases hqo : st.quote with _ | q
        · simp [scanStep, he2, hb, hq, hqo]
        · by_cases hcq : c = q
          · subst hcq
            simp [scanStep, he2, hb, hq, hqo]
          · simp [scanStep, he2, hb, hq, hqo, hcq]
      · by_cases hqn : st.quote = none
        · by_cases hsemi : c = ';'
          · right
            subst hsemi
            exact ⟨he2, hqn, rfl, scanStep_semi_emit st he2 hqn⟩
          · left
            simp [scanStep, he2, hb, hq, hqn, hsemi]
        · left
          rcases hqo : st.quote with _ | q
          · exact absurd hqo hqn
          · simp [scanStep, he2, hb, hq, hqo]

theorem mem_trimL (l : List Char) (x : Char) (h : x ∈ trimL l) : x ∈ l :=
  (List.dropWhile_suffix _).subset h

theorem trimR_isPrefixOf (l : List Char) : trimR l <+: l := by
  unfold trimR
  have h := List.reverse_prefix.mpr (List.dropWhile_suffix (l := l.reverse) isWsChar)
  rwa [List.reverse_reverse] at h

theorem mem_trimR (l : List Char) (x : Char) (h : x ∈ trimR l) : x ∈ l :=
  (trimR_isPrefixOf l).subset h

theorem mem_pyStrip (l : List Char) (x : Char) (h : x ∈ pyStrip l) : x ∈ l :=
  mem_trimL l x (mem_trimR (trimL l) x h)

theorem mem_pStrip (s : String) (x : Char) (h : x ∈ (pStrip s).data) : x ∈ s.data :=
  mem_pyStrip s.data x h

theorem mem_rstripSemi (s : String) (x : Char) (h : x ∈ (rstripSemi s).data) :
    x ∈ s.data := by
  unfold rstripSemi at h
  rw [List.mem_reverse] at h
  exact List.mem_reverse.mp ((List.dropWhile_suffix _).subset h)

theorem dropWhile_idem (p : Char → Bool) (l : List Char) :
    List.dropWhile p (List.dropWhile p l) = List.dropWhile p l := by
  induction l with
  | nil => rfl
  | cons c cs ih =>
    by_cases hp : p c = true
    · simp [List.dropWhile_cons, hp, ih]
    · simp [List.dropWhile_cons, hp]

theorem trimL_idem (l : List Char) : trimL (trimL l) = trimL l :=
  dropWhile_idem isWsChar l

theorem trimR_idem (l : List Char) : trimR (trimR l) = trimR l := by
  unfold trimR
  rw [List.reverse_reverse, dropWhile_idem]

theorem trimL_trimR (l : List Char) (h : trimL l = l) : trimL (trimR l) = trimR l := by
  cases l with
  | nil => simp [trimL, trimR]
  | cons x xs =>
    by_cases hx : isWsChar x = true
    · exfalso
      unfold trimL at h
      rw [List.dropWhile_cons, if_pos hx] at h
      have hlen := (List.dropWhile_suffix (l := xs) isWsChar).length_le
      rw [h] at hlen
      simp at hlen
    · rcases htr : trimR (x :: xs) with _ | ⟨y, ys⟩
      · rfl
      · obtain ⟨t, ht⟩ := trimR_isPrefixOf (x :: xs)
        rw [htr] at ht
        have hyx : y = x := by
          have := ht
          simp only [List.cons_append, List.cons.injEq] at this
          exact this.1
        subst hyx
        unfold trimL
        rw [List.dropWhile_cons, if_neg hx]

theorem pyStrip_idem (l : List Char) : pyStrip (pyStrip l) = pyStrip l := by
  unfold pyStrip
  rw [trimL_trimR (trimL l) (trimL_idem l), trimR_idem]

theorem pStrip_idem (s : String) : pStrip (pStrip s) = pStrip s := by
  unfold pStrip
  exact congrArg String.mk (pyStrip_idem s.data)

theorem preClean_clean (l : List Char) : ∀ c ∈ preClean l, keepPrintable c = true := by
  intro c hc
  unfold preClean ctlToSpace at hc
  rw [List.mem_map] at hc
  obtain ⟨x, _, rfl⟩ := hc
  by_cases h : keepPrintable x = true
  · rw [if_pos h]
    exact h
  · rw [if_neg h]
    decide

theorem keepCtl_of_keepPrintable (c : Char) (h : keepPrintable c = true) :
    keepCtl c = true := by
  simp only [keepPrintable, Bool.or_eq_true, Bool.and_eq_true, decide_eq_true_eq] at h
  simp only [keepCtl, Bool.or_eq_true, decide_eq_true_eq]
  rcases h with (⟨h1, _⟩ | h) | h
  · exact Or.inl (Or.inl h1)
  · subst h
    exact Or.inr rfl
  · subst h
    exact Or.inl (Or.inr rfl)

theorem scanStep_clean (st : ScanState) (c : Char) (hc : keepPrintable c = true)
    (h1 : ∀ s ∈ st.statements, ∀ x ∈ s.data, keepPrintable x = true)
    (h2 : ∀ x ∈ st.current, keepPrintable x = true) :
    (∀ s ∈ (scanStep st c).statements, ∀ x ∈ s.data, keepPrintable x = true) ∧
    (∀ x ∈ (scanStep st c).current, keepPrintable x = true) := by
  have happ : ∀ x ∈ st.current ++ [c], keepPrintable x = true := by
    intro x hx
    rcases List.mem_append.mp hx with h | h
    · exact h2 x h
    · rw [List.mem_singleton] at h
      subst h
      exact hc
  rcases scanStep_cases st c with ⟨hs, hcur⟩ | ⟨_, _, _, heq⟩
  · rw [hs, hcur]
    exact ⟨h1, happ⟩
  · rw [heq]
    constructor
    · intro s hs x hx
      unfold emitStmt at hs
      by_cases hp : pStrip ⟨st.current⟩ = ""
      · rw [if_pos hp] at hs
        exact h1 s hs x hx
      · rw [if_neg hp] at hs
        rcases List.mem_append.mp hs with h | h
        · exact h1 s h x hx
        · rw [List.mem_singleton] at h
          subst h
          exact h2 x (mem_pStrip _ x hx)
    · intro x hx
      simp at hx

theorem scanFold_clean :
    ∀ (d : List Char) (st : ScanState),
      (∀ c ∈ d, keepPrintable c = true) →
      (∀ s ∈ st.statements, ∀ x ∈ s.data, keepPrintable x = true) →
      (∀ x ∈ st.current, keepPrintable x = true) →
      (∀ s ∈ (d.foldl scanStep st).statements, ∀ x ∈ s.data, keepPrintable x = true) ∧
      (∀ x ∈ (d.foldl scanStep st).current, keepPrintable x = true) := by
  intro d
  induction d with
  | nil => intro st _ h1 h2; exact ⟨h1, h2⟩
  | cons c cs ih =>
    intro st hd h1 h2
    rw [List.foldl_cons]
    have hstep := scanStep_clean st c (hd c (by simp)) h1 h2
    exact ih (scanStep st c) (fun x hx => hd x (by simp [hx])) hstep.1 hstep.2

theorem scanStatements_clean (d : List Char) (hd : ∀ c ∈ d, keepPrintable c = true) :
    ∀ s ∈ scanStatements d, ∀ x ∈ s.data, keepPrintable x = true := by
  intro s hs x hx
  unfold scanStatements at hs
  have hfold := scanFold_clean d initScan hd (by intro s hs2; simp [initScan] at hs2)
    (by intro x hx2; simp [initScan] at hx2)
  unfold emitStmt at hs
  by_cases hp : pStrip ⟨(d.foldl scanStep initScan).current⟩ = ""
  · rw [if_pos hp] at hs
    exact hfold.1 s hs x hx
  · rw [if_neg hp] at hs
    rcases List.mem_append.mp hs with h | h
    · exact hfold.1 s h x hx
    · rw [List.mem_singleton] at h
      subst h
      exact hfold.2 x (mem_pStrip _ x hx)

theorem mem_cleanupStatements :
    ∀ (stmts : List String) (acc : List String) (s2 : String),
      s2 ∈ stmts.foldl
        (fun acc stmt =>
          let s3 := filterCtl (pStrip (rstripSemi stmt))
          if s3 = "" then acc else acc ++ [s3]) acc →
      s2 ∈ acc ∨ ∃ stmt ∈ stmts, s2 = filterCtl (pStrip (rstripSemi stmt)) ∧ s2 ≠ "" := by
  intro stmts
  induction stmts with
  | nil => intro acc s2 h; exact Or.inl h
  | cons stmt ss ih =>
    intro acc s2 h
    rw [List.foldl_cons] at h
    rcases ih _ s2 h with hacc | ⟨st2, hst2, heq, hne⟩
    · by_cases hp : filterCtl (pStrip (rstripSemi stmt)) = ""
      · rw [if_pos hp] at hacc
        exact Or.inl hacc
      · rw [if_neg hp] at hacc
        rcases List.mem_append.mp hacc with h2 | h2
        · exact Or.inl h2
        · rw [List.mem_singleton] at h2
          subst h2
          exact Or.inr ⟨stmt, by simp, rfl, hp⟩
    · exact Or.inr ⟨st2, by simp [hst2], heq, hne⟩

theorem filterCtl_of_clean (s : String)
    (h : ∀ x ∈ s.data, keepPrintable x = true) : filterCtl s = s := by
  unfold filterCtl
  have : s.data.filter keepCtl = s.data :=
    List.filter_eq_self.mpr (fun x hx => keepCtl_of_keepPrintable x (h x hx))
  rw [this]

/-- C6 counterexample: a whitespace-only (non-empty) input hits the
fallback branch of `clean_ddl` and yields a list containing the **empty**
statement, not the empty sequence the claim states. -/
theorem clean_ddl_whitespace_counterexample :
    clean_ddl "   " = [""] ∧ clean_ddl "   " ≠ [] ∧ "" ∈ clean_ddl "   " := by
  decide

/-- C6 (amended): every statement produced by the scan-and-cleanup phase of
`clean_ddl` is non-empty and not whitespace-only (it is a fixed point of
stripping); `clean_ddl` returns that list when it is non-empty, and
otherwise falls back to the single statement `cleaned.strip().rstrip(";")`
— which can be empty: the empty input yields `[]`, but a whitespace-only
non-empty input yields `[""]`. -/
theorem clean_ddl_statement_shape :
    (∀ (s : String), ∀ stmt ∈ cleanedList s,
      stmt ≠ "" ∧ pStrip stmt = stmt ∧ pStrip stmt ≠ "") ∧
    (∀ s : String, s ≠ "" → cleanedList s = [] → clean_ddl s = [fallbackStmt s]) ∧
    (∀ s : String, s ≠ "" → cleanedList s ≠ [] → clean_ddl s = cleanedList s) ∧
    clean_ddl "" = [] ∧
    clean_ddl "   " = [""] := by
  refine ⟨?_, ?_, ?_, rfl, by decide⟩
  · intro s stmt hmem
    have hclean := preClean_clean s.data
    have hscan := scanStatements_clean (preClean s.data) hclean
    unfold cleanedList cleanupStatements at hmem
    rcases mem_cleanupStatements _ [] stmt hmem with habs | ⟨raw, hraw, heq, hne⟩
    · simp at habs
    · have hsub : ∀ x ∈ (pStrip (rstripSemi raw)).data, keepPrintable x = true :=
        fun x hx => hscan raw hraw x (mem_rstripSemi raw x (mem_pStrip _ x hx))
      have hfc : filterCtl (pStrip (rstripSemi raw)) = pStrip (rstripSemi raw) :=
        filterCtl_of_clean _ hsub
      rw [hfc] at heq
      have hidem : pStrip stmt = stmt := by
        rw [heq]
        exact pStrip_idem (rstripSemi raw)
      refine ⟨?_, hidem, ?_⟩
      · rw [heq, ← hfc]
        rw [heq, ← hfc] at hne
        exact hne
      · rw [hidem, heq, ← hfc]
        rw [heq, ← hfc] at hne
        exact hne
  · intro s hne hnil
    simp [clean_ddl, hne, hnil]
  · intro s hne hnn
    simp [clean_ddl, hne, hnn]

/-- Witness for C6 on a concrete input: the cleanup-phase statement `A` of
`clean_ddl "A; B;"` is non-empty and strip-fixed. -/
theorem clean_ddl_statement_shape_witness :
    "A" ∈ cleanedList "A; B;" ∧
    ("A" ≠ "" ∧ pStrip "A" = "A" ∧ pStrip "A" ≠ "") := by
  exact ⟨by decide, clean_ddl_statement_shape.1 "A; B;" "A" (by decide)⟩

/-- C1: the `clean_ddl` scanner treats a semicolon as a terminator only
outside single- or double-quoted regions and only when not escaped; a
backslash marks the next character as literal; and the example of the
claim (semicolon inside quotes) splits into three statements in order. -/
theorem clean_ddl_quote_aware :
    clean_ddl exSplitInput = exSplitOutput ∧
    (∀ (st : ScanState) (c : Char), st.escapeNext = true →
      scanStep st c = { st with current := st.current ++ [c], escapeNext := false }) ∧
    (∀ (st : ScanState) (c : Char), st.escapeNext = false → c = '\\' →
      scanStep st c = { st with current := st.current ++ [c], escapeNext := true }) ∧
    (∀ (st : ScanState) (q : Char), st.escapeNext = false → st.quote = some q →
      scanStep st ';' = { st with current := st.current ++ [';'] }) ∧
    (∀ (st : ScanState), st.escapeNext = false → st.quote = none →
      scanStep st ';' =
        { st with statements := emitStmt st.current st.statements, current := [] }) := by
  exact ⟨by decide, scanStep_escape, scanStep_backslash, scanStep_semi_inQuote,
    scanStep_semi_emit⟩

/-- Witness for C1: a semicolon consumed inside a single-quoted region is
appended to the current statement instead of terminating it. -/
theorem clean_ddl_quote_aware_witness :
    ((⟨[], ['a'], some squote, false⟩ : ScanState).escapeNext = false ∧
      (⟨[], ['a'], some squote, false⟩ : ScanState).quote = some squote) ∧
    scanStep ⟨[], ['a'], some squote, false⟩ ';' =
      ⟨[], ['a'] ++ [';'], some squote, false⟩ := by
  exact ⟨⟨rfl, rfl⟩,
    clean_ddl_quote_aware.2.2.2.1 ⟨[], ['a'], some squote, false⟩ squote rfl rfl⟩

end ExportaOracle
